import Mathlib

/-!
Verification of the whitespace-lsp language server (`src/server/src/main.rs`)
against its natural-language specification.

The development shallowly embeds the server's pure logic:

* the coordinate bridge `to_lsp_pos` / node ranges (the `RangeExt` trait);
* the node classifier of the hover handler (`descendant_for_point_range`
  followed by the `while IGNORED_RULES.contains(..)` ascent);
* the three query handlers (hover, document highlight, inlay hint);
* the request dispatcher `main_loop`.

External collaborators (the tree-sitter parser, the filesystem, and the
`whitespace` token library's decoders) are modelled as parameters of an
`Env` record, except for the flow-control-op rendering which is modelled
from the spec (the token types are declared out of scope by the spec and
their rendering is pinned down by the spec's own examples).

Machine integers: `usize` values (rows, columns) are embedded as `Nat`;
the `as u32` casts of `to_lsp_pos` are embedded as reduction modulo 2^32.
-/

/-- A tree-sitter `Point`: zero-based row and (byte) column, both `usize`. -/
structure Point where
  row : Nat
  column : Nat
deriving DecidableEq, Repr

/-- An LSP `Position`: zero-based `line` and `character`, both `u32`
(represented as `Nat`; `to_lsp_pos` reduces modulo 2^32 exactly as the
source's `as u32` casts do). -/
structure Position where
  line : Nat
  character : Nat
deriving DecidableEq, Repr

/-- An LSP `Range`.  (`stop` embeds the source's `end` field, which is a
reserved word in Lean.) -/
structure Range where
  start : Position
  stop : Position
deriving DecidableEq, Repr

/-- `impl RangeExt for tree_sitter::Point { fn to_lsp_pos(&self) }`:
`Position { line: self.row as u32, character: self.column as u32 }`.
The `as u32` casts truncate a 64-bit `usize` modulo 2^32. -/
def to_lsp_pos (p : Point) : Position :=
  { line := p.row % 2 ^ 32, character := p.column % 2 ^ 32 }

/-- A tree-sitter syntax tree node: a kind (grammar rule name), start and
end points, and the ordered list of children.  `parent` is not stored;
the classifier's ascent is embedded through the descendant path instead. -/
inductive Node where
  | mk (kind : String) (startPoint endPoint : Point) (children : List Node)

/-- The node's kind (`Node::kind`). -/
def Node.kind : Node → String
  | .mk k _ _ _ => k

/-- The node's start point (`Node::start_position`). -/
def Node.startPoint : Node → Point
  | .mk _ s _ _ => s

/-- The node's end point (`Node::end_position`). -/
def Node.endPoint : Node → Point
  | .mk _ _ e _ => e

/-- The node's ordered children (`Node::children`). -/
def Node.children : Node → List Node
  | .mk _ _ _ c => c

/-- The range `{ start: node.start_position().to_lsp_pos(), end:
node.end_position().to_lsp_pos() }` built by the hover and
document-highlight handlers (the spec's `node_range`). -/
def nodeRange (n : Node) : Range :=
  { start := to_lsp_pos n.startPoint, stop := to_lsp_pos n.endPoint }

/-- Lexicographic order on points, as used by tree-sitter when testing
whether a point range falls inside a node's span. -/
def pointLe (p q : Point) : Bool :=
  decide (p.row < q.row ∨ (p.row = q.row ∧ p.column ≤ q.column))

/-- Whether the point `p` lies inside node `n`'s span (both ends
inclusive, which is how `descendant_for_point_range(p, p)` treats the
degenerate range `[p, p]`). -/
def nodeContains (n : Node) (p : Point) : Bool :=
  pointLe n.startPoint p && pointLe p n.endPoint

/-- `Node::descendant_for_point_range(p, p)`, embedded as the full descent
path: starting from `n`, repeatedly step into the first child whose span
contains `p`, until no child contains it.  The returned list is the chain
from the found descendant (head) up to `n` (last element) — i.e. the
found node together with the `parent()` chain the hover handler's ascent
walks. -/
def descendNode (p : Point) (n : Node) : List Node :=
  match h : n.children.find? (fun c => nodeContains c p) with
  | some c => descendNode p c ++ [n]
  | none => [n]
termination_by sizeOf n
decreasing_by
  rcases n with ⟨k, s, e, cs⟩
  simp only [Node.children] at h
  have hm := List.mem_of_find?_eq_some h
  have hlt := List.sizeOf_lt_of_mem hm
  simp only [Node.mk.sizeOf_spec]
  omega

/-- The hover handler's ascent: `while IGNORED_RULES.contains(&node.kind())
{ node = node.parent().unwrap(); }`, walked along the descent path.
`none` embeds a panicking `parent().unwrap()` (running past the root). -/
def ascend (ignored : List String) : List Node → Option Node
  | [] => none
  | n :: rest => if n.kind ∈ ignored then ascend ignored rest else some n

/-- The hover handler's node classifier: `descendant_for_point_range(point,
point)` (which yields `None` — a panicking `.unwrap()` — when the point is
outside the root's span) followed by the `IGNORED_RULES` ascent.  `none`
embeds either panic. -/
def classify (ignored : List String) (root : Node) (p : Point) : Option Node :=
  if nodeContains root p = true then ascend ignored (descendNode p root) else none

/-- `s.replace("label ", "")` on Rust strings, embedded on the character
list: scan left to right; at each position, if the pattern `"label "` is a
prefix of the remaining input, drop it and continue scanning after it
(Rust's `replace` finds non-overlapping matches left to right and, with an
empty replacement, resumes after each match); otherwise keep the character
and advance one position. -/
def stripLabel (cs : List Char) : List Char :=
  match cs with
  | [] => []
  | c :: rest =>
    if ("label ".toList).isPrefixOf (c :: rest) then stripLabel (rest.drop 5)
    else c :: stripLabel rest
termination_by cs.length
decreasing_by
  · simp only [List.length_cons, List.length_drop]
    omega
  · simp only [List.length_cons]
    omega

/-- `format!("{}", op).replace("label ", "")` lifted back to `String`. -/
def stripLabelStr (s : String) : String :=
  String.mk (stripLabel s.data)

/-- Modelled from the spec: the token library's `Label` — "a symbolic jump
target decoded from a whitespace-encoded bit string" — is out of scope for
the source under `src/` and is represented by its rendered name (the
spec's examples use names such as `A` and `L3`). -/
structure Label where
  name : String
deriving DecidableEq, Repr

/-- Modelled from the spec: a `Label` operand's default rendering carries
the `"label "` prefix — §4.7 gives `call label L3` as the default
rendering of a call, so the operand renders as `label L3`. -/
def Label.render (l : Label) : String := "label " ++ l.name

/-- Modelled from the spec: `FlowControlOp` — "a control-flow instruction
(mark label, call, jump, conditional jumps, return, end of program) which
may carry a `Label` operand" (§3, glossary). -/
inductive FlowControlOp where
  | mark (l : Label)
  | call (l : Label)
  | jump (l : Label)
  | jumpz (l : Label)
  | jumpn (l : Label)
  | ret
  | endOp
deriving DecidableEq, Repr

/-- Modelled from the spec: the default string rendering (`format!("{}",
op)`) of a flow-control operation: the mnemonic followed by the rendered
`Label` operand when there is one — §4.7's example renders a call as
`call label L3`, and E4 shows `mark`, `call`, `jump`, `end` mnemonics.
The spec does not pin the conditional-jump and return mnemonics; `jz`,
`jn` and `ret` are used here. -/
def FlowControlOp.display : FlowControlOp → String
  | .mark l => "mark " ++ l.render
  | .call l => "call " ++ l.render
  | .jump l => "jump " ++ l.render
  | .jumpz l => "jz " ++ l.render
  | .jumpn l => "jn " ++ l.render
  | .ret => "ret"
  | .endOp => "end"

/-- Whether the operation's label operand (if any) renders without a space
character — true of every label name the spec exhibits (`A`, `L3`). -/
def FlowControlOp.name_ok : FlowControlOp → Bool
  | .mark l | .call l | .jump l | .jumpz l | .jumpn l => !(l.name.data.contains ' ')
  | .ret | .endOp => true

/-- The inlay-hint label of the source:
`format!("{}", op).replace("label ", "")`. -/
def hintLabel (op : FlowControlOp) : String :=
  stripLabelStr op.display

/-- The spec's words for the hint label (claim C6): the default rendering
"with any *leading* substring `"label "` stripped", leaving non-leading
occurrences in place.  Stated for comparison with `hintLabel`. -/
def stripLeadingLabel (s : String) : String :=
  if ("label ".toList).isPrefixOf s.data then String.mk (s.data.drop 6) else s

/-- `lsp_types::DocumentHighlightKind`. -/
inductive DocumentHighlightKind where
  | read
  | write
  | text
deriving DecidableEq, Repr

/-- `lsp_types::DocumentHighlight`: a range plus an optional kind (the
source always fills the kind with `Some(..)`). -/
structure DocumentHighlight where
  range : Range
  kind : Option DocumentHighlightKind
deriving DecidableEq, Repr

/-- `impl HighlightExt for Node { fn to_document_highlight(&self) }`:
kinds starting with `"op"` become `READ`, kind `"num"` becomes `WRITE`,
anything else becomes `TEXT`; the range is the node's range. -/
def to_document_highlight (n : Node) : DocumentHighlight :=
  { range := nodeRange n
    kind := some
      (if ("op".toList).isPrefixOf n.kind.data then DocumentHighlightKind.read
       else if n.kind = "num" then DocumentHighlightKind.write
       else DocumentHighlightKind.text) }

/-- `lsp_types::InlayHintKind` (only `TYPE` is used by the source). -/
inductive InlayHintKind where
  | type
  | parameter
deriving DecidableEq, Repr

/-- `lsp_types::InlayHint`, restricted to the fields the source sets; the
remaining optional fields are all set to `none` by the handler and are
kept as `Option Unit` to record that. -/
structure InlayHint where
  label : String
  kind : Option InlayHintKind
  position : Position
  text_edits : Option Unit
  tooltip : Option Unit
  padding_left : Option Unit
  padding_right : Option Unit
  data : Option Unit
deriving DecidableEq, Repr

/-- The inlay-hint handler's map over `ast.flow_control_ops(&source)`:
for each `(n, op)` an `InlayHint` with the stripped label, kind `TYPE`,
position `n.end_position().to_lsp_pos()` and every other field `None`. -/
def inlayHints (flows : List (Node × FlowControlOp)) : List InlayHint :=
  flows.map fun x =>
    { label := hintLabel x.2
      kind := some InlayHintKind.type
      position := to_lsp_pos x.1.endPoint
      text_edits := none
      tooltip := none
      padding_left := none
      padding_right := none
      data := none }

/-- The hover contents computed by the hover handler's `match node.kind()`:
`"num"` nodes decode as `Num` and render decimally, `"label"` nodes decode
as `Label` and render in debug form, anything else yields the kind name.
The two decoder-renderers are parameters (`render_num`, `render_label`)
because the token library is an external collaborator. -/
def hoverContents (render_num render_label : Node → String) (n : Node) : String :=
  if n.kind = "num" then render_num n
  else if n.kind = "label" then render_label n
  else n.kind

/-- `lsp_types::Hover`: plain-string contents plus the (always `Some`)
range. -/
structure Hover where
  contents : String
  range : Option Range
deriving DecidableEq, Repr

/-- The result payload of a response: one constructor per response shape
the server emits (`nullResult` is the `handle_shutdown` acknowledgement). -/
inductive LspResult where
  | hover (h : Hover)
  | highlights (hs : List DocumentHighlight)
  | hints (hs : List InlayHint)
  | nullResult
deriving DecidableEq, Repr

/-- `lsp_server::Response`: id, optional result, optional error.  The
source only ever sends `error: None`. -/
structure Response where
  id : Nat
  result : Option LspResult
  error : Option String
deriving DecidableEq, Repr

/-- An inbound `lsp_server::Message`.  A request carries the fields the
supported methods extract from their JSON parameters: the document URI,
the cursor position (hover/highlight) and the visible range (inlay hint). -/
inductive Message where
  | request (id : Nat) (method : String) (uri : String) (pos : Position) (range : Range)
  | notification (text : String)
  | response (id : Nat)

/-- What the server writes for one inbound message: responses go to the
protocol stream (stdout), log lines go to stderr. -/
inductive Output where
  | resp (r : Response)
  | log (s : String)
deriving DecidableEq, Repr

/-- The protocol responses among a list of outputs. -/
def responsesOf (outs : List Output) : List Response :=
  outs.filterMap fun o =>
    match o with
    | .resp r => some r
    | .log _ => none

/-- How the loop proceeds after one message. -/
inductive StepResult where
  | continueLoop (outs : List Output)
  | exitLoop (outs : List Output)
  | panicAbort (outs : List Output)

/-- The external collaborators of the handlers, out of scope for the
source under `src/`: the filesystem read behind `read_file` (every request
re-reads the URI's file), the tree-sitter `tokenize` of the `whitespace`
parser (total: malformed input still yields a tree), the AST's
`flow_control_ops` enumeration (source order), the `Num`/`Label`
decoder-renderers of the hover handler, and the parser's `IGNORED_RULES`
set. -/
structure Env where
  read_file : String → String
  tokenize : String → Node
  flow_control_ops : String → List (Node × FlowControlOp)
  render_num : Node → String
  render_label : Node → String
  ignored_rules : List String

/-- The hover handler (`HoverRequest::METHOD` arm): read the file,
tokenize, classify the cursor point; on a `"source_file"` result just
continue (no response); otherwise respond with the kind-dependent
contents and the node's range.  `panicAbort` embeds the panicking
`.unwrap()`s of the classifier. -/
def hoverStep (env : Env) (id : Nat) (uri : String) (pos : Position) : StepResult :=
  match classify env.ignored_rules (env.tokenize (env.read_file uri))
      { row := pos.line, column := pos.character } with
  | none => .panicAbort [.log "got msg", .log "got Hover request"]
  | some node =>
    if node.kind = "source_file" then
      .continueLoop [.log "got msg", .log "got Hover request", .log "descendant"]
    else
      .continueLoop [.log "got msg", .log "got Hover request", .log "descendant",
        .resp { id := id
                result := some (.hover
                  { contents := hoverContents env.render_num env.render_label node
                    range := some (nodeRange node) })
                error := none }]

/-- The document-highlight handler (`DocumentHighlightRequest::METHOD`
arm): one highlight per direct child of the root; the cursor position is
extracted from the parameters but never used. -/
def highlightStep (env : Env) (id : Nat) (uri : String) (_pos : Position) : StepResult :=
  .continueLoop [.log "got msg", .log "got DocumentHighlight request",
    .resp { id := id
            result := some (.highlights
              (((env.tokenize (env.read_file uri)).children).map to_document_highlight))
            error := none }]

/-- The inlay-hint handler (`InlayHintRequest::METHOD` arm): one hint per
flow-control operation; the visible range is extracted from the
parameters but never used.  (`eprintln!("op: ..")` runs once per
operation while the hints are collected.) -/
def inlayStep (env : Env) (id : Nat) (uri : String) (_range : Range) : StepResult :=
  .continueLoop ([.log "got msg", .log "got InlayHint request"] ++
    ((env.flow_control_ops (env.read_file uri)).map fun _ => Output.log "op") ++
    [.resp { id := id
             result := some (.hints (inlayHints (env.flow_control_ops (env.read_file uri))))
             error := none }])

/-- One iteration of the dispatcher's `for msg in &connection.receiver`
match: shutdown is acknowledged and the loop ends; hover, document
highlight and inlay hint run their handlers; any other request is logged
and dropped; notifications and responses are logged and ignored.  Log
lines are embedded as coarse tags of the source's `eprintln!` calls. -/
def handleMessage (env : Env) (m : Message) : StepResult :=
  match m with
  | .notification _ => .continueLoop [.log "got msg", .log "got notification"]
  | .response _ => .continueLoop [.log "got msg", .log "got response"]
  | .request id method uri pos range =>
    if method = "shutdown" then
      .exitLoop [.log "got msg", .resp { id := id, result := some .nullResult, error := none }]
    else if method = "textDocument/hover" then hoverStep env id uri pos
    else if method = "textDocument/documentHighlight" then highlightStep env id uri pos
    else if method = "textDocument/inlayHint" then inlayStep env id uri range
    else
      .continueLoop [.log "got msg", .log "got unknown request"]

/-- `main_loop`: consume inbound messages serially; a `continue` appends
the iteration's outputs and keeps going, shutdown stops cleanly after its
acknowledgement, a panic aborts the process (no further messages are
processed). -/
def main_loop (env : Env) : List Message → List Output
  | [] => []
  | m :: rest =>
    match handleMessage env m with
    | .continueLoop outs => outs ++ main_loop env rest
    | .exitLoop outs => outs
    | .panicAbort outs => outs

/-- Sample node: the `num` token of the spec's E1 file `SSSTTLL`. -/
def numNode : Node := .mk "num" ⟨0,0⟩ ⟨0,7⟩ []

/-- Sample tree: a root with the single `num` child (E1). -/
def sampleRoot : Node := .mk "source_file" ⟨0,0⟩ ⟨0,7⟩ [numNode]

/-- Sample node of an ignored kind. -/
def wsNode : Node := .mk "ws" ⟨0,0⟩ ⟨0,3⟩ []

/-- Sample tree whose first child is ignored padding, for the classifier
ascent. -/
def paddedRoot : Node := .mk "source_file" ⟨0,0⟩ ⟨0,7⟩ [wsNode, .mk "num" ⟨0,3⟩ ⟨0,7⟩ []]

/-- Sample tree of the empty file (E2). -/
def emptyRoot : Node := .mk "source_file" ⟨0,0⟩ ⟨0,0⟩ []

/-- Sample tree with three top-level instructions of kinds `op_stack`,
`num` and `lf` (E3). -/
def highlightRoot : Node :=
  .mk "source_file" ⟨0,0⟩ ⟨1,0⟩
    [.mk "op_stack" ⟨0,0⟩ ⟨0,4⟩ [], .mk "num" ⟨0,4⟩ ⟨0,7⟩ [], .mk "lf" ⟨0,7⟩ ⟨1,0⟩ []]

/-- Sample flow-control instruction nodes for E4. -/
def flowNode1 : Node := .mk "op_flow" ⟨0,0⟩ ⟨0,5⟩ []

/-- Second sample flow-control node. -/
def flowNode2 : Node := .mk "op_flow" ⟨1,0⟩ ⟨1,5⟩ []

/-- Third sample flow-control node. -/
def flowNode3 : Node := .mk "op_flow" ⟨2,0⟩ ⟨2,5⟩ []

/-- Fourth sample flow-control node. -/
def flowNode4 : Node := .mk "op_flow" ⟨3,0⟩ ⟨3,3⟩ []

/-- Sample environment: E1's file parses to `sampleRoot`, and the
flow-control operations are E4's `mark A`, `call A`, `jump A`, `end`. -/
def sampleEnv : Env :=
  { read_file := fun _ => "   \t\t\n\n"
    tokenize := fun _ => sampleRoot
    flow_control_ops := fun _ =>
      [(flowNode1, .mark { name := "A" }), (flowNode2, .call { name := "A" }),
        (flowNode3, .jump { name := "A" }), (flowNode4, .endOp)]
    render_num := fun _ => "3"
    render_label := fun n => n.kind
    ignored_rules := ["ws"] }

/-- Sample environment for the empty file (E2). -/
def emptyEnv : Env :=
  { read_file := fun _ => ""
    tokenize := fun _ => emptyRoot
    flow_control_ops := fun _ => []
    render_num := fun _ => ""
    render_label := fun _ => ""
    ignored_rules := ["ws"] }

/-- Sample environment whose tree is `highlightRoot` (E3). -/
def highlightEnv : Env :=
  { read_file := fun _ => "doc"
    tokenize := fun _ => highlightRoot
    flow_control_ops := fun _ => []
    render_num := fun _ => ""
    render_label := fun _ => ""
    ignored_rules := ["ws"] }

/-- A throwaway position for requests whose position is irrelevant. -/
def posZero : Position := { line := 0, character := 0 }

/-- A throwaway range for requests whose range is irrelevant. -/
def rangeZero : Range := { start := posZero, stop := posZero }

/-- Unfolding: `stripLabel [] = []` (the recursion is well-founded, so the
equation is not definitional). -/
lemma strip_nil : stripLabel [] = [] := by rw [stripLabel]

/-- Unfolding: at a position where `"label "` starts, the scan drops it
and resumes after it. -/
lemma strip_step_true (rest : List Char) :
    stripLabel ('l' :: 'a' :: 'b' :: 'e' :: 'l' :: ' ' :: rest) = stripLabel rest := by
  rw [stripLabel]
  simp [List.isPrefixOf]

/-- Unfolding: a position whose character is not `'l'` cannot start a
match, so the scan keeps the character. -/
lemma strip_ne_l (c : Char) (rest : List Char) (h : c ≠ 'l') :
    stripLabel (c :: rest) = c :: stripLabel rest := by
  rw [stripLabel, if_neg]
  intro hb
  have hp := List.isPrefixOf_iff_prefix.mp hb
  have h1 : 'l' = c := (List.cons_prefix_cons.mp hp).1
  exact h h1.symm

/-- Unfolding: `'l'` followed by a character other than `'a'` cannot start
a match either. -/
lemma strip_l_ne_a (c : Char) (rest : List Char) (h : c ≠ 'a') :
    stripLabel ('l' :: c :: rest) = 'l' :: stripLabel (c :: rest) := by
  rw [stripLabel, if_neg]
  intro hb
  have hp := List.isPrefixOf_iff_prefix.mp hb
  have h2 : ('a' :: "bel ".toList) <+: (c :: rest) := (List.cons_prefix_cons.mp hp).2
  exact h ((List.cons_prefix_cons.mp h2).1.symm)

/-- A string without spaces contains no occurrence of `"label "`, so the
replacement leaves it unchanged. -/
lemma stripLabel_no_space (cs : List Char) (h : ' ' ∉ cs) : stripLabel cs = cs := by
  induction cs with
  | nil => rw [stripLabel]
  | cons c rest ih =>
    have hpre : ¬ (("label ".toList).isPrefixOf (c :: rest) = true) := by
      intro hb
      have hp := List.isPrefixOf_iff_prefix.mp hb
      exact h (hp.subset (by decide))
    rw [stripLabel, if_neg hpre]
    have hr : ' ' ∉ rest := fun hm => h (List.mem_cons_of_mem _ hm)
    rw [ih hr]

/-- If every space of `w` sits at an index below 5 then `"label "` (whose
own space sits at offset 5) cannot occur anywhere in `w`. -/
lemma label_not_contained (w : List Char)
    (h : ∀ k, w[k]? = some ' ' → k < 5) :
    ¬ ("label ".toList <:+: w) := by
  rintro ⟨s, t, hw⟩
  have hsp : w[s.length + 5]? = some ' ' := by
    rw [← hw, List.append_assoc, List.getElem?_append_right (by omega)]
    simp
  have := h _ hsp
  omega

/-- In `pre ++ tail` with `pre` of length at most 5 and `tail` space-free,
every space sits at an index below 5. -/
lemma spaces_lt_five (pre tail : List Char) (hlen : pre.length ≤ 5) (ht : ' ' ∉ tail) :
    ∀ k, (pre ++ tail)[k]? = some ' ' → k < 5 := by
  intro k hk
  by_contra h5
  push_neg at h5
  rw [List.getElem?_append_right (by omega)] at hk
  exact ht (List.getElem?_mem hk)

/-- Scanning `"mark label " ++ name`: the non-leading `"label "` is found
and removed. -/
lemma strip_mark_display (name : List Char) :
    stripLabel ("mark label ".toList ++ name) = "mark ".toList ++ stripLabel name := by
  show stripLabel
      ('m' :: 'a' :: 'r' :: 'k' :: ' ' :: 'l' :: 'a' :: 'b' :: 'e' :: 'l' :: ' ' :: name) = _
  rw [strip_ne_l _ _ (by decide), strip_ne_l _ _ (by decide), strip_ne_l _ _ (by decide),
    strip_ne_l _ _ (by decide), strip_ne_l _ _ (by decide), strip_step_true]
  rfl

/-- Scanning `"call label " ++ name`. -/
lemma strip_call_display (name : List Char) :
    stripLabel ("call label ".toList ++ name) = "call ".toList ++ stripLabel name := by
  show stripLabel
      ('c' :: 'a' :: 'l' :: 'l' :: ' ' :: 'l' :: 'a' :: 'b' :: 'e' :: 'l' :: ' ' :: name) = _
  rw [strip_ne_l _ _ (by decide), strip_ne_l _ _ (by decide),
    strip_l_ne_a _ _ (by decide), strip_l_ne_a _ _ (by decide),
    strip_ne_l _ _ (by decide), strip_step_true]
  rfl

/-- Scanning `"jump label " ++ name`. -/
lemma strip_jump_display (name : List Char) :
    stripLabel ("jump label ".toList ++ name) = "jump ".toList ++ stripLabel name := by
  show stripLabel
      ('j' :: 'u' :: 'm' :: 'p' :: ' ' :: 'l' :: 'a' :: 'b' :: 'e' :: 'l' :: ' ' :: name) = _
  rw [strip_ne_l _ _ (by decide), strip_ne_l _ _ (by decide), strip_ne_l _ _ (by decide),
    strip_ne_l _ _ (by decide), strip_ne_l _ _ (by decide), strip_step_true]
  rfl

/-- Scanning `"jz label " ++ name`. -/
lemma strip_jz_display (name : List Char) :
    stripLabel ("jz label ".toList ++ name) = "jz ".toList ++ stripLabel name := by
  show stripLabel ('j' :: 'z' :: ' ' :: 'l' :: 'a' :: 'b' :: 'e' :: 'l' :: ' ' :: name) = _
  rw [strip_ne_l _ _ (by decide), strip_ne_l _ _ (by decide), strip_ne_l _ _ (by decide),
    strip_step_true]
  rfl

/-- Scanning `"jn label " ++ name`. -/
lemma strip_jn_display (name : List Char) :
    stripLabel ("jn label ".toList ++ name) = "jn ".toList ++ stripLabel name := by
  show stripLabel ('j' :: 'n' :: ' ' :: 'l' :: 'a' :: 'b' :: 'e' :: 'l' :: ' ' :: name) = _
  rw [strip_ne_l _ _ (by decide), strip_ne_l _ _ (by decide), strip_ne_l _ _ (by decide),
    strip_step_true]
  rfl

/-- The hint label of each operation with a space-free label name: the
mnemonic plus the bare name — every occurrence of `"label "` is removed,
including the non-leading one inside the operand rendering. -/
lemma hintLabel_eq (name : String) (h : ' ' ∉ name.data) :
    hintLabel (.mark ⟨name⟩) = "mark " ++ name ∧
    hintLabel (.call ⟨name⟩) = "call " ++ name ∧
    hintLabel (.jump ⟨name⟩) = "jump " ++ name ∧
    hintLabel (.jumpz ⟨name⟩) = "jz " ++ name ∧
    hintLabel (.jumpn ⟨name⟩) = "jn " ++ name ∧
    hintLabel .ret = "ret" ∧
    hintLabel .endOp = "end" := by
  have hs := stripLabel_no_space name.data h
  refine ⟨?_, ?_, ?_, ?_, ?_, ?_, ?_⟩ <;>
    simp only [hintLabel, stripLabelStr, FlowControlOp.display, Label.render]
  · show String.mk (stripLabel ("mark label ".toList ++ name.data)) = _
    rw [strip_mark_display, hs]
    rfl
  · show String.mk (stripLabel ("call label ".toList ++ name.data)) = _
    rw [strip_call_display, hs]
    rfl
  · show String.mk (stripLabel ("jump label ".toList ++ name.data)) = _
    rw [strip_jump_display, hs]
    rfl
  · show String.mk (stripLabel ("jz label ".toList ++ name.data)) = _
    rw [strip_jz_display, hs]
    rfl
  · show String.mk (stripLabel ("jn label ".toList ++ name.data)) = _
    rw [strip_jn_display, hs]
    rfl
  · show String.mk (stripLabel "ret".toList) = _
    rw [show ("ret".toList) = 'r' :: 'e' :: 't' :: [] from rfl,
      strip_ne_l _ _ (by decide), strip_ne_l _ _ (by decide), strip_ne_l _ _ (by decide),
      strip_nil]
  · show String.mk (stripLabel "end".toList) = _
    rw [show ("end".toList) = 'e' :: 'n' :: 'd' :: [] from rfl,
      strip_ne_l _ _ (by decide), strip_ne_l _ _ (by decide), strip_ne_l _ _ (by decide),
      strip_nil]

/-- No inlay-hint label of an operation with a space-free label name
contains the substring `"label "`. -/
lemma hint_no_label (op : FlowControlOp) (h : op.name_ok = true) :
    ¬ ("label ".toList <:+: (hintLabel op).data) := by
  cases op with
  | mark l =>
    have hname : ' ' ∉ l.name.data := by simpa [FlowControlOp.name_ok] using h
    rw [(hintLabel_eq l.name hname).1, String.data_append]
    exact label_not_contained _ (spaces_lt_five _ _ (by decide) hname)
  | call l =>
    have hname : ' ' ∉ l.name.data := by simpa [FlowControlOp.name_ok] using h
    rw [(hintLabel_eq l.name hname).2.1, String.data_append]
    exact label_not_contained _ (spaces_lt_five _ _ (by decide) hname)
  | jump l =>
    have hname : ' ' ∉ l.name.data := by simpa [FlowControlOp.name_ok] using h
    rw [(hintLabel_eq l.name hname).2.2.1, String.data_append]
    exact label_not_contained _ (spaces_lt_five _ _ (by decide) hname)
  | jumpz l =>
    have hname : ' ' ∉ l.name.data := by simpa [FlowControlOp.name_ok] using h
    rw [(hintLabel_eq l.name hname).2.2.2.1, String.data_append]
    exact label_not_contained _ (spaces_lt_five _ _ (by decide) hname)
  | jumpn l =>
    have hname : ' ' ∉ l.name.data := by simpa [FlowControlOp.name_ok] using h
    rw [(hintLabel_eq l.name hname).2.2.2.2.1, String.data_append]
    exact label_not_contained _ (spaces_lt_five _ _ (by decide) hname)
  | ret =>
    rw [(hintLabel_eq "" (by decide)).2.2.2.2.2.1]
    decide
  | endOp =>
    rw [(hintLabel_eq "" (by decide)).2.2.2.2.2.2]
    decide

/-- The descent path always ends at the node it started from (the root of
the search), whatever the point. -/
lemma descendNode_shape (p : Point) (n : Node) : ∃ l, descendNode p n = l ++ [n] := by
  rw [descendNode]
  split
  · exact ⟨_, rfl⟩
  · exact ⟨[], rfl⟩

/-- Ascending a parent chain that ends in a non-ignored node always stops
at some non-ignored node before running past the end. -/
lemma ascend_append_ok (ignored : List String) (l : List Node) (r : Node)
    (h : r.kind ∉ ignored) :
    ∃ m, ascend ignored (l ++ [r]) = some m ∧ m.kind ∉ ignored := by
  induction l with
  | nil => exact ⟨r, by simp [ascend, h], h⟩
  | cons a l' ih =>
    by_cases ha : a.kind ∈ ignored
    · simpa [ascend, ha] using ih
    · exact ⟨a, by simp [ascend, ha], ha⟩

/-- Non-dependent unfolding equation for `descendNode`. -/
lemma descendNode_eq (p : Point) (n : Node) :
    descendNode p n =
      match n.children.find? (fun c => nodeContains c p) with
      | some c => descendNode p c ++ [n]
      | none => [n] := by
  rw [descendNode]
  split
  · next c h => rw [h]
  · next h => rw [h]


/-- C10: the point-to-LSP-position conversion reduces its inputs modulo
2^32 — the emitted line is `row mod 2^32` and the emitted character is
`column mod 2^32` (the `usize`-to-`u32` casts), so rows or columns of at
least 2^32 wrap silently (adding 2^32 to either coordinate leaves the
emitted position unchanged) rather than erroring. -/
theorem to_lsp_pos_wraps_mod (p : Point) :
    (to_lsp_pos p).line = p.row % 2 ^ 32 ∧
    (to_lsp_pos p).character = p.column % 2 ^ 32 ∧
    to_lsp_pos { row := p.row + 2 ^ 32, column := p.column + 2 ^ 32 } = to_lsp_pos p := by
  refine ⟨rfl, rfl, ?_⟩
  simp [to_lsp_pos, Nat.add_mod_right]

/-- C7, counterexample: at the point with row 2^32 the emitted line is 0,
not 2^32 — the conversion is not the identity on coordinates, because of
the `as u32` truncation. -/
theorem to_lsp_pos_row_cex :
    (to_lsp_pos { row := 2 ^ 32, column := 0 }).line ≠ 2 ^ 32 := by
  simp [to_lsp_pos]

/-- C7, amended: for every parser point whose row and column are below
2^32 (every coordinate a real u32-bounded protocol position can carry),
the converted position's line equals the point's row and its character
equals the point's (byte) column — no UTF-16 re-encoding — and likewise
`nodeRange` on a node with such points maps start/end row/column to
line/character unchanged. -/
theorem to_lsp_pos_faithful_below_u32 (p : Point) (n : Node)
    (hp1 : p.row < 2 ^ 32) (hp2 : p.column < 2 ^ 32)
    (h1 : n.startPoint.row < 2 ^ 32) (h2 : n.startPoint.column < 2 ^ 32)
    (h3 : n.endPoint.row < 2 ^ 32) (h4 : n.endPoint.column < 2 ^ 32) :
    (to_lsp_pos p).line = p.row ∧ (to_lsp_pos p).character = p.column ∧
    (nodeRange n).start.line = n.startPoint.row ∧
    (nodeRange n).start.character = n.startPoint.column ∧
    (nodeRange n).stop.line = n.endPoint.row ∧
    (nodeRange n).stop.character = n.endPoint.column :=
  ⟨Nat.mod_eq_of_lt hp1, Nat.mod_eq_of_lt hp2, Nat.mod_eq_of_lt h1, Nat.mod_eq_of_lt h2,
    Nat.mod_eq_of_lt h3, Nat.mod_eq_of_lt h4⟩

/-- C7 witness: the amended statement evaluated on the point `(1, 2)` and
the E1 `num` node. -/
theorem to_lsp_pos_faithful_below_u32_witness :
    ((1 : Nat) < 2 ^ 32 ∧ (2 : Nat) < 2 ^ 32) ∧
    (to_lsp_pos { row := 1, column := 2 }).line = 1 ∧
    (to_lsp_pos { row := 1, column := 2 }).character = 2 ∧
    (nodeRange numNode).start.line = numNode.startPoint.row ∧
    (nodeRange numNode).start.character = numNode.startPoint.column ∧
    (nodeRange numNode).stop.line = numNode.endPoint.row ∧
    (nodeRange numNode).stop.character = numNode.endPoint.column :=
  ⟨⟨by decide, by decide⟩,
    to_lsp_pos_faithful_below_u32 { row := 1, column := 2 } numNode
      (by decide) (by decide) (by decide) (by decide) (by decide) (by decide)⟩

/-- C4: for every cursor point inside the root's span, the classifier
(descendant lookup followed by ascending while the kind is ignored)
yields a node without panicking — the lookup is `some` and no `parent()`
call runs past the root (embedded as `classify ≠ none`) — and the
returned node's kind is not in the ignored set.  The hypotheses record
the parser's guarantees: the root spans the whole document and its kind
`"source_file"` is not an ignored rule. -/
theorem classifier_total_and_unignored (ignored : List String) (root : Node) (p : Point)
    (hin : nodeContains root p = true)
    (hroot : root.kind = "source_file")
    (hign : "source_file" ∉ ignored) :
    ∃ n, classify ignored root p = some n ∧ n.kind ∉ ignored := by
  obtain ⟨l, hl⟩ := descendNode_shape p root
  rw [classify, if_pos hin, hl]
  exact ascend_append_ok ignored l root (by rw [hroot]; exact hign)

/-- C4 witness: on `paddedRoot` the point `(0, 1)` lands inside the
ignored `ws` child; the classifier still yields a node (the root, after
ascending) whose kind is not ignored. -/
theorem classifier_total_and_unignored_witness :
    (nodeContains paddedRoot { row := 0, column := 1 } = true ∧
      paddedRoot.kind = "source_file" ∧ "source_file" ∉ ["ws"]) ∧
    ∃ n, classify ["ws"] paddedRoot { row := 0, column := 1 } = some n ∧ n.kind ∉ ["ws"] :=
  ⟨⟨rfl, rfl, by decide⟩,
    classifier_total_and_unignored ["ws"] paddedRoot { row := 0, column := 1 }
      rfl rfl (by decide)⟩

/-- C1: for every hover request whose classifier yields a node (other
than the root, which produces no response), the dispatcher responds with
contents determined by the node's kind: `"num"` nodes render through the
`Num` decoder-renderer, `"label"` nodes through the `Label`
decoder-renderer (debug form), and any other kind yields the kind name
verbatim. -/
theorem hover_contents_by_kind (env : Env) (id : Nat) (uri : String) (pos : Position)
    (range : Range) (n : Node)
    (hc : classify env.ignored_rules (env.tokenize (env.read_file uri))
        { row := pos.line, column := pos.character } = some n)
    (hk : n.kind ≠ "source_file") :
    handleMessage env (.request id "textDocument/hover" uri pos range) =
      .continueLoop [.log "got msg", .log "got Hover request", .log "descendant",
        .resp { id := id
                result := some (.hover
                  { contents := hoverContents env.render_num env.render_label n
                    range := some (nodeRange n) })
                error := none }] ∧
    (n.kind = "num" → hoverContents env.render_num env.render_label n = env.render_num n) ∧
    (n.kind = "label" →
      hoverContents env.render_num env.render_label n = env.render_label n) ∧
    (n.kind ≠ "num" → n.kind ≠ "label" →
      hoverContents env.render_num env.render_label n = n.kind) := by
  refine ⟨?_, ?_, ?_, ?_⟩
  · have hd : handleMessage env (.request id "textDocument/hover" uri pos range) =
        hoverStep env id uri pos := by
      simp [handleMessage]
    rw [hd, hoverStep, hc]
    exact if_neg hk
  · intro h1
    rw [hoverContents, if_pos h1]
  · intro h1
    rw [hoverContents, if_neg (by rw [h1]; decide), if_pos h1]
  · intro h1 h2
    rw [hoverContents, if_neg h1, if_neg h2]

/-- C1 witness: hovering E1's file at `(0, 2)` classifies to the `num`
node and the response renders it through the `Num` decoder (contents
`"3"` in `sampleEnv`). -/
theorem hover_contents_by_kind_witness :
    (classify sampleEnv.ignored_rules
        (sampleEnv.tokenize (sampleEnv.read_file "file:///e1.ws"))
        { row := 0, column := 2 } = some numNode ∧ numNode.kind ≠ "source_file") ∧
    handleMessage sampleEnv
        (.request 7 "textDocument/hover" "file:///e1.ws" { line := 0, character := 2 }
          rangeZero) =
      .continueLoop [.log "got msg", .log "got Hover request", .log "descendant",
        .resp { id := 7
                result := some (.hover
                  { contents := hoverContents sampleEnv.render_num sampleEnv.render_label
                      numNode
                    range := some (nodeRange numNode) })
                error := none }] ∧
    (numNode.kind = "num" →
      hoverContents sampleEnv.render_num sampleEnv.render_label numNode =
        sampleEnv.render_num numNode) ∧
    (numNode.kind = "label" →
      hoverContents sampleEnv.render_num sampleEnv.render_label numNode =
        sampleEnv.render_label numNode) ∧
    (numNode.kind ≠ "num" → numNode.kind ≠ "label" →
      hoverContents sampleEnv.render_num sampleEnv.render_label numNode = numNode.kind) := by
  have hc : classify sampleEnv.ignored_rules
      (sampleEnv.tokenize (sampleEnv.read_file "file:///e1.ws"))
      { row := 0, column := 2 } = some numNode := by
    show classify ["ws"] sampleRoot { row := 0, column := 2 } = some numNode
    rw [classify, if_pos (by rfl), descendNode_eq]
    show ascend ["ws"] (descendNode { row := 0, column := 2 } numNode ++ [sampleRoot]) = _
    rw [descendNode_eq]
    show ascend ["ws"] ([numNode] ++ [sampleRoot]) = _
    rfl
  exact ⟨⟨hc, by decide⟩,
    hover_contents_by_kind sampleEnv 7 "file:///e1.ws" { line := 0, character := 2 }
      rangeZero numNode hc (by decide)⟩

/-- C3: every document-highlight request is answered with exactly one
highlight per direct child of the root node, in source order; a child
whose kind starts with `"op"` gets kind `READ`, a child of kind `"num"`
gets `WRITE`, every other child gets `TEXT`; each highlight's range is
the child's node range. -/
theorem highlight_one_per_child (env : Env) (id : Nat) (uri : String) (pos : Position)
    (range : Range) :
    ∃ hs, handleMessage env (.request id "textDocument/documentHighlight" uri pos range) =
        .continueLoop [.log "got msg", .log "got DocumentHighlight request",
          .resp { id := id, result := some (.highlights hs), error := none }] ∧
      hs.length = (env.tokenize (env.read_file uri)).children.length ∧
      ∀ i (h1 : i < hs.length)
        (h2 : i < (env.tokenize (env.read_file uri)).children.length),
        hs[i].range = nodeRange (env.tokenize (env.read_file uri)).children[i] ∧
        (("op".toList).isPrefixOf (env.tokenize (env.read_file uri)).children[i].kind.data
            = true →
          hs[i].kind = some DocumentHighlightKind.read) ∧
        ((env.tokenize (env.read_file uri)).children[i].kind = "num" →
          hs[i].kind = some DocumentHighlightKind.write) ∧
        (("op".toList).isPrefixOf (env.tokenize (env.read_file uri)).children[i].kind.data
            = false →
          (env.tokenize (env.read_file uri)).children[i].kind ≠ "num" →
          hs[i].kind = some DocumentHighlightKind.text) := by
  refine ⟨((env.tokenize (env.read_file uri)).children).map to_document_highlight,
    by simp [handleMessage, highlightStep], by simp, ?_⟩
  intro i h1 h2
  rw [List.getElem_map]
  refine ⟨rfl, ?_, ?_, ?_⟩
  · intro hop
    simp only [to_document_highlight]
    rw [if_pos hop]
  · intro hnum
    have hno : ¬ (("op".toList).isPrefixOf
        ((env.tokenize (env.read_file uri)).children[i].kind).data = true) := by
      rw [hnum]
      decide
    simp only [to_document_highlight]
    rw [if_neg hno, if_pos hnum]
  · intro hop hnum
    simp only [to_document_highlight]
    rw [if_neg (by rw [hop]; decide), if_neg hnum]

/-- C3 witness: the E3 tree (children of kinds `op_stack`, `num`, `lf`)
yields exactly three highlights with kinds `READ`, `WRITE`, `TEXT`. -/
theorem highlight_one_per_child_witness :
    ∃ hs, handleMessage highlightEnv
        (.request 3 "textDocument/documentHighlight" "file:///e3.ws" posZero rangeZero) =
        .continueLoop [.log "got msg", .log "got DocumentHighlight request",
          .resp { id := 3, result := some (.highlights hs), error := none }] ∧
      hs.length = 3 ∧
      hs.map (fun h => h.kind) =
        [some DocumentHighlightKind.read, some DocumentHighlightKind.write,
          some DocumentHighlightKind.text] := by
  obtain ⟨hs, hmsg, hlen, hfacts⟩ :=
    highlight_one_per_child highlightEnv 3 "file:///e3.ws" posZero rangeZero
  have hlen3 : hs.length = 3 := by rw [hlen]; rfl
  have h0 := hfacts 0 (by omega) (by decide)
  have h1 := hfacts 1 (by omega) (by decide)
  have h2 := hfacts 2 (by omega) (by decide)
  have k0 : hs[0].kind = some DocumentHighlightKind.read := h0.2.1 (by decide)
  have k1 : hs[1].kind = some DocumentHighlightKind.write := h1.2.2.1 (by decide)
  have k2 : hs[2].kind = some DocumentHighlightKind.text := h2.2.2.2 (by decide) (by decide)
  refine ⟨hs, hmsg, hlen3, ?_⟩
  apply List.ext_getElem (by simp [hlen3])
  intro i hi1 hi2
  simp only [List.length_map, hlen3] at hi1
  interval_cases i <;> simp [k0, k1, k2]

/-- C9: for a fixed file, the document-highlight response does not depend
on the request's cursor position and the inlay-hint response does not
depend on the request's visible range — two requests differing only in
that field produce identical dispatcher results. -/
theorem responses_ignore_position_and_range (env : Env) (id : Nat) (uri : String)
    (p₁ p₂ pos : Position) (r₁ r₂ range : Range) :
    handleMessage env (.request id "textDocument/documentHighlight" uri p₁ range) =
      handleMessage env (.request id "textDocument/documentHighlight" uri p₂ range) ∧
    handleMessage env (.request id "textDocument/inlayHint" uri pos r₁) =
      handleMessage env (.request id "textDocument/inlayHint" uri pos r₂) :=
  ⟨rfl, rfl⟩

/-- C8: a request whose method is none of shutdown, hover,
documentHighlight or inlayHint is logged and produces no response; the
loop does not crash and processes the remaining messages exactly as it
would have without the unknown request. -/
theorem unknown_method_logged_and_dropped (env : Env) (id : Nat) (method uri : String)
    (pos : Position) (range : Range) (rest : List Message)
    (h1 : method ≠ "shutdown") (h2 : method ≠ "textDocument/hover")
    (h3 : method ≠ "textDocument/documentHighlight")
    (h4 : method ≠ "textDocument/inlayHint") :
    main_loop env (.request id method uri pos range :: rest) =
      .log "got msg" :: .log "got unknown request" :: main_loop env rest ∧
    responsesOf (main_loop env (.request id method uri pos range :: rest)) =
      responsesOf (main_loop env rest) := by
  have hstep : handleMessage env (.request id method uri pos range) =
      .continueLoop [.log "got msg", .log "got unknown request"] := by
    simp only [handleMessage]
    rw [if_neg h1, if_neg h2, if_neg h3, if_neg h4]
  have hmain : main_loop env (.request id method uri pos range :: rest) =
      .log "got msg" :: .log "got unknown request" :: main_loop env rest := by
    rw [main_loop, hstep]
    rfl
  refine ⟨hmain, ?_⟩
  rw [hmain]
  simp [responsesOf]

/-- C8 witness: E5's `textDocument/definition` request is dropped with
only log output, leaving the rest of the loop unchanged. -/
theorem unknown_method_logged_and_dropped_witness :
    (("textDocument/definition" : String) ≠ "shutdown" ∧
      ("textDocument/definition" : String) ≠ "textDocument/hover" ∧
      ("textDocument/definition" : String) ≠ "textDocument/documentHighlight" ∧
      ("textDocument/definition" : String) ≠ "textDocument/inlayHint") ∧
    main_loop emptyEnv
        [.request 9 "textDocument/definition" "file:///e5.ws" posZero rangeZero] =
      .log "got msg" :: .log "got unknown request" :: main_loop emptyEnv [] ∧
    responsesOf (main_loop emptyEnv
        [.request 9 "textDocument/definition" "file:///e5.ws" posZero rangeZero]) =
      responsesOf (main_loop emptyEnv []) :=
  ⟨⟨by decide, by decide, by decide, by decide⟩,
    unknown_method_logged_and_dropped emptyEnv 9 "textDocument/definition" "file:///e5.ws"
      posZero rangeZero [] (by decide) (by decide) (by decide) (by decide)⟩

/-- C5: when the hover classifier yields the tree root (kind
`"source_file"`), the server sends no response at all for that request —
neither a null-result success nor an error — and continues processing
the remaining messages of the loop. -/
theorem hover_root_silent (env : Env) (id : Nat) (uri : String) (pos : Position)
    (range : Range) (rest : List Message) (n : Node)
    (hc : classify env.ignored_rules (env.tokenize (env.read_file uri))
        { row := pos.line, column := pos.character } = some n)
    (hk : n.kind = "source_file") :
    main_loop env (.request id "textDocument/hover" uri pos range :: rest) =
      .log "got msg" :: .log "got Hover request" :: .log "descendant" ::
        main_loop env rest ∧
    responsesOf (main_loop env (.request id "textDocument/hover" uri pos range :: rest)) =
      responsesOf (main_loop env rest) := by
  have hstep : handleMessage env (.request id "textDocument/hover" uri pos range) =
      .continueLoop [.log "got msg", .log "got Hover request", .log "descendant"] := by
    have hd : handleMessage env (.request id "textDocument/hover" uri pos range) =
        hoverStep env id uri pos := by
      simp [handleMessage]
    rw [hd, hoverStep, hc]
    exact if_pos hk
  have hmain : main_loop env (.request id "textDocument/hover" uri pos range :: rest) =
      .log "got msg" :: .log "got Hover request" :: .log "descendant" ::
        main_loop env rest := by
    rw [main_loop, hstep]
    rfl
  refine ⟨hmain, ?_⟩
  rw [hmain]
  simp [responsesOf]

/-- C5 witness: E2 — hovering the empty file at `(0, 0)` classifies to
the root and the loop emits only log lines for the request. -/
theorem hover_root_silent_witness :
    (classify emptyEnv.ignored_rules
        (emptyEnv.tokenize (emptyEnv.read_file "file:///e2.ws"))
        { row := 0, column := 0 } = some emptyRoot ∧ emptyRoot.kind = "source_file") ∧
    main_loop emptyEnv
        [.request 5 "textDocument/hover" "file:///e2.ws" posZero rangeZero] =
      .log "got msg" :: .log "got Hover request" :: .log "descendant" ::
        main_loop emptyEnv [] ∧
    responsesOf (main_loop emptyEnv
        [.request 5 "textDocument/hover" "file:///e2.ws" posZero rangeZero]) =
      responsesOf (main_loop emptyEnv []) := by
  have hc : classify emptyEnv.ignored_rules
      (emptyEnv.tokenize (emptyEnv.read_file "file:///e2.ws"))
      { row := 0, column := 0 } = some emptyRoot := by
    show classify ["ws"] emptyRoot { row := 0, column := 0 } = some emptyRoot
    rw [classify, if_pos (by rfl), descendNode_eq]
    show ascend ["ws"] [emptyRoot] = _
    rfl
  exact ⟨⟨hc, rfl⟩,
    hover_root_silent emptyEnv 5 "file:///e2.ws" posZero rangeZero [] emptyRoot hc rfl⟩

/-- C2: every inlay-hint request is answered with exactly one hint per
flow-control operation, in source order; each hint's position is the end
point of its operation's node converted to an LSP position, each hint's
kind is `TYPE`, and — for operations whose label operand renders without
a space, as in every label the spec exhibits — no hint label contains the
substring `"label "`. -/
theorem inlay_hint_invariant (env : Env) (id : Nat) (uri : String) (pos : Position)
    (range : Range)
    (hnames : ∀ x ∈ env.flow_control_ops (env.read_file uri),
      FlowControlOp.name_ok x.2 = true) :
    ∃ hs, handleMessage env (.request id "textDocument/inlayHint" uri pos range) =
        .continueLoop ([.log "got msg", .log "got InlayHint request"] ++
          ((env.flow_control_ops (env.read_file uri)).map fun _ => Output.log "op") ++
          [.resp { id := id, result := some (.hints hs), error := none }]) ∧
      hs.length = (env.flow_control_ops (env.read_file uri)).length ∧
      ∀ i (h1 : i < hs.length)
        (h2 : i < (env.flow_control_ops (env.read_file uri)).length),
        hs[i].position =
          to_lsp_pos (env.flow_control_ops (env.read_file uri))[i].1.endPoint ∧
        hs[i].kind = some InlayHintKind.type ∧
        ¬ ("label ".toList <:+: hs[i].label.data) := by
  refine ⟨inlayHints (env.flow_control_ops (env.read_file uri)),
    by simp [handleMessage, inlayStep], by simp [inlayHints], ?_⟩
  intro i h1 h2
  simp only [inlayHints, List.getElem_map]
  refine ⟨trivial, trivial, ?_⟩
  exact hint_no_label _
    (hnames _ (List.getElem_mem h2))

/-- C2 witness: E4's four operations (`mark A`, `call A`, `jump A`,
`end`) yield four hints, each positioned at its node's end, of kind
`TYPE`, and the first hint's label is free of `"label "`. -/
theorem inlay_hint_invariant_witness :
    (∀ x ∈ sampleEnv.flow_control_ops (sampleEnv.read_file "file:///e4.ws"),
      FlowControlOp.name_ok x.2 = true) ∧
    ∃ hs, handleMessage sampleEnv
        (.request 4 "textDocument/inlayHint" "file:///e4.ws" posZero rangeZero) =
        .continueLoop ([.log "got msg", .log "got InlayHint request"] ++
          ((sampleEnv.flow_control_ops (sampleEnv.read_file "file:///e4.ws")).map
            fun _ => Output.log "op") ++
          [.resp { id := 4, result := some (.hints hs), error := none }]) ∧
      hs.length = 4 ∧
      ∀ i (h1 : i < hs.length)
        (h2 : i < (sampleEnv.flow_control_ops (sampleEnv.read_file "file:///e4.ws")).length),
        hs[i].position =
          to_lsp_pos
            (sampleEnv.flow_control_ops (sampleEnv.read_file "file:///e4.ws"))[i].1.endPoint ∧
        hs[i].kind = some InlayHintKind.type ∧
        ¬ ("label ".toList <:+: hs[i].label.data) := by
  have hnames : ∀ x ∈ sampleEnv.flow_control_ops (sampleEnv.read_file "file:///e4.ws"),
      FlowControlOp.name_ok x.2 = true := by decide
  obtain ⟨hs, hmsg, hlen, hfacts⟩ :=
    inlay_hint_invariant sampleEnv 4 "file:///e4.ws" posZero rangeZero hnames
  exact ⟨hnames, hs, hmsg, by rw [hlen]; rfl, hfacts⟩

/-- C6, counterexample: for the call operation with label `L3` the code's
hint label is `call L3` (Rust's `replace` removes the non-leading
`"label "`), while stripping only a leading occurrence of `"label "`
would leave the rendering `call label L3` untouched — so the hint label
does not equal the leading-stripped rendering. -/
theorem hint_label_leading_only_cex :
    hintLabel (.call { name := "L3" }) ≠
      stripLeadingLabel (FlowControlOp.display (.call { name := "L3" })) := by
  rw [(hintLabel_eq "L3" (by decide)).2.1]
  decide

/-- C6, amended: the inlay hint's label equals the operation's default
string rendering with every occurrence of the substring `"label "`
removed (Rust's `str::replace` replaces all occurrences, not only a
leading one): with a space-free operand name the label collapses to the
mnemonic followed by the bare name, and the operand's non-leading
`"label "` is stripped too. -/
theorem hint_label_strips_all_occurrences (name : String) (h : ' ' ∉ name.data) :
    hintLabel (.mark { name := name }) = "mark " ++ name ∧
    hintLabel (.call { name := name }) = "call " ++ name ∧
    hintLabel (.jump { name := name }) = "jump " ++ name ∧
    hintLabel (.jumpz { name := name }) = "jz " ++ name ∧
    hintLabel (.jumpn { name := name }) = "jn " ++ name ∧
    hintLabel .ret = "ret" ∧
    hintLabel .endOp = "end" :=
  hintLabel_eq name h

/-- C6 witness: the amended statement evaluated at the label name `A`
(E4's hints `mark A`, `call A`, `jump A`, `end`). -/
theorem hint_label_strips_all_occurrences_witness :
    (' ' ∉ "A".data) ∧
    (hintLabel (.mark { name := "A" }) = "mark " ++ "A" ∧
      hintLabel (.call { name := "A" }) = "call " ++ "A" ∧
      hintLabel (.jump { name := "A" }) = "jump " ++ "A" ∧
      hintLabel (.jumpz { name := "A" }) = "jz " ++ "A" ∧
      hintLabel (.jumpn { name := "A" }) = "jn " ++ "A" ∧
      hintLabel .ret = "ret" ∧
      hintLabel .endOp = "end") :=
  ⟨by decide, hint_label_strips_all_occurrences "A" (by decide)⟩
